/-
Verification of core kernel/filesystem routines of this repository against
its specification, via a shallow embedding in Lean 4.

Each embedded definition is translated from the Rust source file named in
its doc comment.  Machine integers are modelled as `Nat` with explicit
bounds or `% 2 ^ w` where overflow matters; Rust panics are modelled as
`Option` results (`none` = panic); mutable state is passed explicitly.
-/
import Mathlib

set_option maxRecDepth 4000

/- ===================== generic bit-arithmetic helpers ===================== -/

/-- Setting a clear bit with `|||` is the same as adding `2 ^ i`. -/
theorem or_two_pow_eq_add {w i : Nat} (h : w.testBit i = false) :
    w ||| 2 ^ i = w + 2 ^ i := by
  have hq : w = 2 ^ (i + 1) * (w / 2 ^ (i + 1)) + w % 2 ^ (i + 1) :=
    (Nat.div_add_mod w (2 ^ (i + 1))).symm ▸ rfl
  have hrlt : w % 2 ^ (i + 1) < 2 ^ (i + 1) := Nat.mod_lt _ (Nat.pos_pow_of_pos _ (by omega))
  have hbit : (w % 2 ^ (i + 1)).testBit i = false := by
    rw [Nat.testBit_mod_two_pow]
    simp [h]
  -- the low part is below 2 ^ i because its bit i is clear
  have hrlt' : w % 2 ^ (i + 1) < 2 ^ i := by
    by_contra hge
    push_neg at hge
    have h2 : (2 : Nat) ^ (i + 1) = 2 ^ i * 2 := by rw [Nat.pow_succ]
    have hdiv : w % 2 ^ (i + 1) / 2 ^ i = 1 := by
      apply Nat.div_eq_of_lt_le
      · simpa using hge
      · omega
    rw [Nat.testBit_to_div_mod, hdiv] at hbit
    simp at hbit
  set q := w / 2 ^ (i + 1) with hqdef
  set r := w % 2 ^ (i + 1) with hrdef
  have hsum : w + 2 ^ i = 2 ^ (i + 1) * q + (r + 2 ^ i) := by omega
  have hrlt2 : r + 2 ^ i < 2 ^ (i + 1) := by
    have h2 : (2 : Nat) ^ (i + 1) = 2 ^ i * 2 := by rw [Nat.pow_succ]
    omega
  apply Nat.eq_of_testBit_eq
  intro j
  rw [Nat.testBit_or, hsum, Nat.testBit_mul_pow_two_add _ hrlt2 j]
  conv_lhs => rw [hq]
  rw [Nat.testBit_mul_pow_two_add _ hrlt j]
  by_cases hji : j < i + 1
  · simp only [hji, if_true]
    by_cases hje : j = i
    · subst hje
      rw [Nat.add_comm r (2 ^ j), Nat.testBit_two_pow_add_eq, hbit,
        Nat.testBit_two_pow_self]
      simp [hbit]
    · have hlt : j < i := by omega
      rw [Nat.add_comm r (2 ^ i), Nat.testBit_two_pow_add_gt hlt,
        Nat.testBit_two_pow_of_ne (by omega)]
      simp
  · simp only [hji, if_false]
    rw [Nat.testBit_two_pow_of_ne (by omega)]
    simp

/-- `p <<< k ||| low` with `low < 2 ^ k` packs disjoint fields, so it is addition. -/
theorem shiftLeft_or_eq_add {p low k : Nat} (h : low < 2 ^ k) :
    p <<< k ||| low = 2 ^ k * p + low := by
  apply Nat.eq_of_testBit_eq
  intro j
  rw [Nat.testBit_or, Nat.testBit_shiftLeft, Nat.testBit_mul_pow_two_add _ h j]
  by_cases hjk : j < k
  · have : ¬ (k ≤ j) := by omega
    simp [hjk, this]
  · have hge : k ≤ j := by omega
    have hlo : low.testBit j = false :=
      Nat.testBit_lt_two_pow (Nat.lt_of_lt_of_le h (Nat.pow_le_pow_right (by omega) hge))
    simp [hjk, hge, hlo]

/- ===================== C5 : easy-fs DiskInode::total_blocks =====================
   Source: src/easy-fs/src/layout.rs -/

/-- `BLOCK_SZ` (512 bytes per disk block). -/
def BLOCK_SZ : Nat := 512

/-- `INODE_DIRECT_COUNT` direct slots of a `DiskInode`. -/
def INODE_DIRECT_COUNT : Nat := 28

/-- `INODE_INDIRECT1_COUNT`: block ids per indirect block. -/
def INODE_INDIRECT1_COUNT : Nat := 128

/-- `INDIRECT1_BOUND = INODE_DIRECT_COUNT + INODE_INDIRECT1_COUNT`. -/
def INDIRECT1_BOUND : Nat := INODE_DIRECT_COUNT + INODE_INDIRECT1_COUNT

/-- `DiskInode::_data_blocks`: size rounded up to blocks. -/
def data_blocks_of (size : Nat) : Nat := (size + BLOCK_SZ - 1) / BLOCK_SZ

/-- `DiskInode::total_blocks` (src/easy-fs/src/layout.rs): data blocks plus
the indirect1 block plus the indirect2 block and its level-1 children. -/
def total_blocks (size : Nat) : Nat :=
  let data_blocks := data_blocks_of size
  let total := data_blocks
  let total := if data_blocks > INODE_DIRECT_COUNT then total + 1 else total
  if data_blocks > INDIRECT1_BOUND then
    total + 1 + (data_blocks - INDIRECT1_BOUND + INODE_INDIRECT1_COUNT - 1) / INODE_INDIRECT1_COUNT
  else total

/- ===================== C7 : StackFrameAllocator =====================
   Source: src/os/src/mm/frame_allocator.rs -/

/-- `StackFrameAllocator` (src/os/src/mm/frame_allocator.rs): bump cursor
`current`, range end `endPpn` (field `end` in the source), and the LIFO
`recycled` stack.  The list head models the top (last element) of the Vec. -/
structure StackFrameAllocator where
  current : Nat
  endPpn : Nat
  recycled : List Nat
deriving DecidableEq, Repr

/-- `StackFrameAllocator::alloc`: pop the recycle stack if nonempty, else
advance the cursor; `none` when the cursor hit the end. -/
def StackFrameAllocator.alloc (s : StackFrameAllocator) :
    Option Nat × StackFrameAllocator :=
  match s.recycled with
  | ppn :: rest => (some ppn, { s with recycled := rest })
  | [] =>
    if s.current = s.endPpn then (none, s)
    else (some s.current, { s with current := s.current + 1 })

/-- `StackFrameAllocator::dealloc`: `none` models the
`panic!("Frame ppn={:#x} has not been allocated!")` on the validity check. -/
def StackFrameAllocator.dealloc (s : StackFrameAllocator) (ppn : Nat) :
    Option StackFrameAllocator :=
  if s.current ≤ ppn ∨ ppn ∈ s.recycled then none
  else some { s with recycled := ppn :: s.recycled }

/- ===================== C8 : Semaphore =====================
   Source: src/os/src/sync/semaphore.rs; add_task pushes to the back of the
   scheduler ready queue (src/os/src/task/manager.rs). -/

/-- Kernel state visible to the semaphore: its counter and FIFO wait queue,
plus the scheduler ready queue (threads as abstract ids). -/
structure SemState where
  count : Int
  wait_queue : List Nat
  ready_queue : List Nat
deriving DecidableEq, Repr

/-- `Semaphore::up`: `count += 1`; if the new count ≤ 0, pop the front
waiter (if any) and `add_task` it (push to the back of the ready queue). -/
def Semaphore.up (s : SemState) : SemState :=
  let count := s.count + 1
  if count ≤ 0 then
    match s.wait_queue with
    | task :: rest =>
      { count := count, wait_queue := rest, ready_queue := s.ready_queue ++ [task] }
    | [] => { s with count := count }
  else { s with count := count }

/-- `Semaphore::down` for current thread `cur`: `count -= 1`; if the new
count < 0, append `cur` to the wait queue and block (the `Bool` result is
true iff `block_current_and_run_next` was reached). -/
def Semaphore.down (s : SemState) (cur : Nat) : SemState × Bool :=
  let count := s.count - 1
  if count < 0 then
    ({ s with count := count, wait_queue := s.wait_queue ++ [cur] }, true)
  else ({ s with count := count }, false)

/- ===================== C9 : MutexSpin / MutexBlocking unlock =====================
   Source: src/os/src/sync/mutex.rs -/

/-- `MutexSpin::unlock` (src/os/src/sync/mutex.rs): unconditionally clears
the flag; there is no assertion, so it never panics (`Option` models the
panic possibility; the result is always `some`). -/
def MutexSpin.unlock (_locked : Bool) : Option Bool :=
  some false

/-- `MutexBlocking` inner state plus the scheduler ready queue. -/
structure MutexBlockingState where
  locked : Bool
  wait_queue : List Nat
  ready_queue : List Nat
deriving DecidableEq, Repr

/-- `MutexBlocking::unlock`: `assert!(locked)` (modelled by `none`), then
wake the front waiter keeping the flag, else clear the flag. -/
def MutexBlocking.unlock (s : MutexBlockingState) : Option MutexBlockingState :=
  if s.locked = false then none
  else
    match s.wait_queue with
    | waking_task :: rest =>
      some { s with wait_queue := rest, ready_queue := s.ready_queue ++ [waking_task] }
    | [] => some { s with locked := false }

/- ===================== C1 : sys_kill =====================
   Source: src/os/src/syscall/process.rs (sys_kill).  The pending-signal
   sets are 32-bit `SignalFlags` values; every one of the 32 bits is a
   defined signal (mirrored in src/user/src/lib.rs), so
   `SignalFlags::from_bits` succeeds exactly on values below 2 ^ 32. -/

/-- The kernel's PID → process-control-block map restricted to the field
`sys_kill` touches: the pending `signals` bitset of each process. -/
structure KillKernel where
  procs : List (Nat × Nat)
deriving DecidableEq, Repr

/-- `pid2task` followed by reading `inner.signals`. -/
def pid2signals (k : KillKernel) (pid : Nat) : Option Nat :=
  (k.procs.find? (fun p => p.1 = pid)).map (fun p => p.2)

/-- `SignalFlags::from_bits`: all 32 bits are defined flags. -/
def signalFlagsFromBits (bits : Nat) : Option Nat :=
  if bits < 2 ^ 32 then some bits else none

/-- `sys_kill(pid, signum)` (src/os/src/syscall/process.rs).  The source
does `let mut signals = inner.signals;` — `SignalFlags` is `Copy`, so
`signals.insert(flag)` mutates only this local copy and the process
control block is returned unchanged; only the return value depends on the
lookup.  (For `signum ≥ 32` the source's `1 << signum` shift itself aborts;
that path is modelled as the `from_bits` failure and is unused here.) -/
def sys_kill (k : KillKernel) (pid : Nat) (signum : Nat) : Int × KillKernel :=
  match pid2signals k pid with
  | some signals =>
    match signalFlagsFromBits (2 ^ signum) with
    | some flag =>
      if signals &&& flag ≠ 0 then (-1, k)
      else
        -- `signals.insert(flag)` on the by-value copy: the kernel state is unchanged
        (0, k)
    | none => (-1, k)
  | none => (-1, k)

/- ===================== C2 : PipeRingBuffer =====================
   Source: src/os/src/fs/pipe.rs -/

/-- `RING_BUFFER_SIZE` of the pipe ring buffer. -/
def RING_BUFFER_SIZE : Nat := 32

/-- `RingBufferStatus` (src/os/src/fs/pipe.rs). -/
inductive RingBufferStatus where
  | Full
  | Empty
  | Normal
deriving DecidableEq, Repr

/-- `PipeRingBuffer` (src/os/src/fs/pipe.rs); the `write_end` weak
reference is irrelevant to the buffer arithmetic and omitted. -/
structure PipeRingBuffer where
  arr : List Nat
  head : Nat
  tail : Nat
  status : RingBufferStatus
deriving DecidableEq, Repr

/-- `PipeRingBuffer::new`. -/
def PipeRingBuffer.new : PipeRingBuffer :=
  { arr := List.replicate RING_BUFFER_SIZE 0
    head := 0
    tail := 0
    status := RingBufferStatus.Empty }

/-- `PipeRingBuffer::write_byte`: status := Normal, store at `tail`,
advance `tail` mod 32, and mark Full when it catches up with `head`. -/
def PipeRingBuffer.write_byte (s : PipeRingBuffer) (byte : Nat) : PipeRingBuffer :=
  let s1 := { s with status := RingBufferStatus.Normal, arr := s.arr.set s.tail byte }
  let s2 := { s1 with tail := (s1.tail + 1) % RING_BUFFER_SIZE }
  if s2.tail = s2.head then { s2 with status := RingBufferStatus.Full } else s2

/-- `PipeRingBuffer::read_byte`: status := Normal, read at `head`, advance
`head` mod 32, and mark Empty when it catches up with `tail`. -/
def PipeRingBuffer.read_byte (s : PipeRingBuffer) : Nat × PipeRingBuffer :=
  let s1 := { s with status := RingBufferStatus.Normal }
  let c := s1.arr.getD s1.head 0
  let s2 := { s1 with head := (s1.head + 1) % RING_BUFFER_SIZE }
  if s2.head = s2.tail then (c, { s2 with status := RingBufferStatus.Empty }) else (c, s2)

/-- `PipeRingBuffer::available_read`. -/
def PipeRingBuffer.available_read (s : PipeRingBuffer) : Nat :=
  if s.status = RingBufferStatus.Empty then 0
  else if s.tail > s.head then s.tail - s.head
  else s.tail + RING_BUFFER_SIZE - s.head

/-- `PipeRingBuffer::available_write` exactly as in the source, including
the `tail > head` branch that returns `tail - head`. -/
def PipeRingBuffer.available_write (s : PipeRingBuffer) : Nat :=
  if s.status = RingBufferStatus.Full then 0
  else if s.tail > s.head then s.tail - s.head
  else RING_BUFFER_SIZE - s.available_read

/-- Buffer states reachable from the empty buffer by `write_byte` calls
guarded by `available_write > 0` (with u8 payloads) and `read_byte` calls
guarded by `available_read > 0`, as in `Pipe::write` / `Pipe::read`. -/
inductive PipeReachable : PipeRingBuffer → Prop where
  | init : PipeReachable PipeRingBuffer.new
  | write (s : PipeRingBuffer) (b : Nat) :
      PipeReachable s → 0 < s.available_write → b < 256 →
      PipeReachable (s.write_byte b)
  | read (s : PipeRingBuffer) :
      PipeReachable s → 0 < s.available_read →
      PipeReachable (s.read_byte).2

/- ===================== C4 : timer interrupt vs check_timer =====================
   Source: src/os/src/trap/mod.rs (trap_handler, SupervisorTimer arm) and
   src/os/src/timer.rs (check_timer).  Threads are abstract ids; the
   `TIMERS` BinaryHeap (max-heap on negated expire_ms, so peek = minimum
   expire_ms) is modelled as a list sorted by ascending expire_ms. -/

/-- One `TimerCondVar` entry of the `TIMERS` heap. -/
structure TimerCondVar where
  expire_ms : Nat
  task : Nat
deriving DecidableEq, Repr

/-- Kernel state touched by the timer-interrupt arm of `trap_handler`. -/
structure TimerTrapState where
  timers : List TimerCondVar
  ready_queue : List Nat
  current : Nat
  next_trigger_armed : Bool
deriving DecidableEq, Repr

/-- `check_timer` (src/os/src/timer.rs): while the top entry is due
(`expire_ms ≤ current_ms`), `add_task` its thread and pop it. -/
def check_timer (current_ms : Nat) (timers : List TimerCondVar)
    (ready_queue : List Nat) : List TimerCondVar × List Nat :=
  match timers with
  | [] => ([], ready_queue)
  | timer :: rest =>
    if timer.expire_ms ≤ current_ms then
      check_timer current_ms rest (ready_queue ++ [timer.task])
    else (timer :: rest, ready_queue)

/-- The `Trap::Interrupt(SupervisorTimer)` arm of `trap_handler`
(src/os/src/trap/mod.rs): `set_next_trigger()` then
`suspend_current_and_run_next()` (current thread re-queued at the back).
No call to `check_timer` occurs in this arm or anywhere else. -/
def trap_handler_supervisor_timer (s : TimerTrapState) : TimerTrapState :=
  let s1 := { s with next_trigger_armed := true }
  { s1 with ready_queue := s1.ready_queue ++ [s1.current] }

/- ===================== C10 : DirEntry =====================
   Source: src/easy-fs/src/layout.rs -/

/-- `NAME_LENGTH_LIMIT` (27; the name array holds one extra NUL byte). -/
def NAME_LENGTH_LIMIT : Nat := 27

/-- `DirEntry`: 28 name bytes plus the inode number. -/
structure DirEntry where
  name : List Nat
  inode_number : Nat
deriving DecidableEq, Repr

/-- `DirEntry::new`: `bytes[..name.len()].copy_from_slice(name)` into a
zeroed 28-byte array; for `name.len() > 28` the slice indexing panics
(`none`). -/
def DirEntry.new (name : List Nat) (inode_number : Nat) : Option DirEntry :=
  if name.length ≤ NAME_LENGTH_LIMIT + 1 then
    some { name := name ++ List.replicate (NAME_LENGTH_LIMIT + 1 - name.length) 0
           inode_number := inode_number }
  else none

/-- The Rust `(0usize..).find(|i| name[*i] == 0)` scan: index of the first
zero byte; `none` models the out-of-bounds panic when no byte is zero. -/
def firstZeroIdx : List Nat → Option Nat
  | [] => none
  | b :: rest => if b = 0 then some 0 else (firstZeroIdx rest).map (· + 1)

/-- `DirEntry::name`: the bytes before the first NUL. -/
def DirEntry.nameBytes (e : DirEntry) : Option (List Nat) :=
  (firstZeroIdx e.name).map (fun len => e.name.take len)

/-- `DirEntry::inode_number`. -/
def DirEntry.inodeNumber (e : DirEntry) : Nat := e.inode_number

/- ===================== C3 : PageTable map / unmap / translate =====================
   Source: src/os/src/mm/page_table.rs and src/os/src/mm/address.rs.
   Physical memory is modelled as a function from (ppn, index) to the
   64-bit PTE stored there; `frame_alloc` is the bump allocator of
   src/os/src/mm/frame_allocator.rs starting from `nextFrame`, and
   `FrameTracker::new` zero-fills every freshly allocated frame. -/

/-- A page-table view of physical memory: `mem p i` is the PTE bits at
index `i` (0 ≤ i < 512) of the node in frame `p`, plus the root node's PPN
and the frame allocator's bump cursor. -/
structure PTMem where
  mem : Nat → Nat → Nat
  rootPpn : Nat
  nextFrame : Nat

/-- Store PTE bits `v` at index `i` of frame `p`. -/
def writePTE (m : Nat → Nat → Nat) (p i v : Nat) : Nat → Nat → Nat :=
  fun q j => if q = p ∧ j = i then v else m q j

/-- `FrameTracker::new`: the freshly allocated frame is zero-filled. -/
def zeroFrame (m : Nat → Nat → Nat) (p : Nat) : Nat → Nat → Nat :=
  fun q j => if q = p then 0 else m q j

/-- `PageTableEntry::new`: `ppn.0 << 10 | flags.bits as usize`. -/
def PTE.new (ppn flags : Nat) : Nat := ppn <<< 10 ||| flags

/-- `PageTableEntry::ppn`: `self.bits >> 10 & ((1usize << 44) - 1)`. -/
def PTE.ppn (bits : Nat) : Nat := bits >>> 10 &&& (1 <<< 44 - 1)

/-- `PageTableEntry::flags`: `self.bits as u8` (all 8 flag bits are
defined, so `PTEFlags::from_bits` always succeeds on the truncation). -/
def PTE.flags (bits : Nat) : Nat := bits % 256

/-- `PageTableEntry::is_valid`: `(flags & V) != empty` with `V = 1`. -/
def PTE.isValid (bits : Nat) : Bool := PTE.flags bits &&& 1 ≠ 0

/-- `VirtPageNum::indexes`: the three 9-bit levels of a 27-bit VPN,
highest level first. -/
def VPN.indexes (vpn : Nat) : Nat × Nat × Nat :=
  ((vpn >>> 18) &&& 511, (vpn >>> 9) &&& 511, vpn &&& 511)

/-- One interior level of `PageTable::find_pte_create`: follow a valid
PTE, else `frame_alloc` a zeroed frame and store `PTE::new(frame.ppn, V)`.
Returns the updated memory and the PPN of the next-level node. -/
def stepCreate (s : PTMem) (ppn idx : Nat) : PTMem × Nat :=
  let pte := s.mem ppn idx
  if PTE.isValid pte then (s, PTE.ppn pte)
  else
    let f := s.nextFrame
    let m := writePTE (zeroFrame s.mem f) ppn idx (PTE.new f 1)
    ({ s with mem := m, nextFrame := f + 1 }, f)

/-- `PageTable::find_pte_create`: walk the two interior levels (creating
missing nodes) and return the location (frame, index) of the leaf PTE. -/
def find_pte_create (s : PTMem) (vpn : Nat) : PTMem × Nat × Nat :=
  let i0 := (VPN.indexes vpn).1
  let i1 := (VPN.indexes vpn).2.1
  let i2 := (VPN.indexes vpn).2.2
  let r1 := stepCreate s s.rootPpn i0
  let r2 := stepCreate r1.1 r1.2 i1
  (r2.1, r2.2, i2)

/-- `PageTable::find_pte`: walk without creating; interior PTEs must be
valid, the leaf PTE is returned (as its location) WITHOUT a validity
check. -/
def find_pte (s : PTMem) (vpn : Nat) : Option (Nat × Nat) :=
  let i0 := (VPN.indexes vpn).1
  let i1 := (VPN.indexes vpn).2.1
  let i2 := (VPN.indexes vpn).2.2
  let pte0 := s.mem s.rootPpn i0
  if PTE.isValid pte0 then
    let pte1 := s.mem (PTE.ppn pte0) i1
    if PTE.isValid pte1 then some (PTE.ppn pte1, i2)
    else none
  else none

/-- `PageTable::map`: `find_pte_create`, `assert!(!pte.is_valid())`
(modelled by `none`), then store `PTE::new(ppn, flags | V)`. -/
def PageTable.map (s : PTMem) (vpn ppn flags : Nat) : Option PTMem :=
  let r := find_pte_create s vpn
  let s1 := r.1
  let p := r.2.1
  let i := r.2.2
  if PTE.isValid (s1.mem p i) then none
  else some { s1 with mem := writePTE s1.mem p i (PTE.new ppn (flags ||| 1)) }

/-- `PageTable::unmap`: `find_pte(vpn).unwrap()` (`none` on failure),
`assert!(pte.is_valid())`, then zero the leaf PTE. -/
def PageTable.unmap (s : PTMem) (vpn : Nat) : Option PTMem :=
  match find_pte s vpn with
  | none => none
  | some (p, i) =>
    if PTE.isValid (s.mem p i) then some { s with mem := writePTE s.mem p i 0 }
    else none

/-- `PageTable::translate`: the leaf PTE's bits, copied whenever the two
interior levels are valid — even if the leaf itself is not valid. -/
def PageTable.translate (s : PTMem) (vpn : Nat) : Option Nat :=
  (find_pte s vpn).map (fun loc => s.mem loc.1 loc.2)

/-- An empty page table over zeroed memory: root frame 0 just allocated,
next free frame 1 (`PageTable::new` with the allocator at frame 0). -/
def pt0 : PTMem :=
  { mem := fun _ _ => 0, rootPpn := 0, nextFrame := 1 }

/-- Well-formedness of the walk of `vpn` in state `s`: the allocator
cursor is ahead of the root and of every valid interior node on the path,
those nodes are pairwise distinct frames, and the cursor leaves room for
two fresh 44-bit PPNs. -/
def pathOK (s : PTMem) (vpn : Nat) : Prop :=
  s.rootPpn < s.nextFrame ∧ s.nextFrame + 2 ≤ 2 ^ 44 ∧
  (∀ p0, PTE.isValid (s.mem s.rootPpn (VPN.indexes vpn).1) = true →
    p0 = PTE.ppn (s.mem s.rootPpn (VPN.indexes vpn).1) →
    p0 < s.nextFrame ∧ p0 ≠ s.rootPpn ∧
    (PTE.isValid (s.mem p0 (VPN.indexes vpn).2.1) = true →
      PTE.ppn (s.mem p0 (VPN.indexes vpn).2.1) < s.nextFrame ∧
      PTE.ppn (s.mem p0 (VPN.indexes vpn).2.1) ≠ s.rootPpn ∧
      PTE.ppn (s.mem p0 (VPN.indexes vpn).2.1) ≠ p0))

/-- The (amended) C3 round-trip property for one `map`/`unmap` pair:
`map(vpn, ppn, f)` succeeds; `translate(vpn)` then yields an entry carrying
`ppn` whose flags contain `f|V`; a subsequent `unmap(vpn)` succeeds, after
which `translate(vpn)` yields `some 0` — the zero (invalid) leaf copy,
not `none`. -/
def MapUnmapSpec (s : PTMem) (vpn ppn flags : Nat) : Prop :=
  ∃ s1, PageTable.map s vpn ppn flags = some s1 ∧
    (∃ pte, PageTable.translate s1 vpn = some pte ∧
      PTE.ppn pte = ppn ∧ PTE.flags pte &&& (flags ||| 1) = flags ||| 1 ∧
      PTE.isValid pte = true) ∧
    (∃ s2, PageTable.unmap s1 vpn = some s2 ∧
      PageTable.translate s2 vpn = some 0 ∧ PTE.isValid 0 = false)

/- ===================== C6 : easy-fs Bitmap =====================
   Source: src/easy-fs/src/bitmap.rs.  A bitmap region is the run of
   `blocks` bitmap blocks starting at `start_block_id`; block `i` of the
   model is disk block `start_block_id + i`.  Each block is a
   `BitmapBlock = [u64; 64]`, modelled as a list of 64 words below 2^64. -/

/-- `u64::MAX`. -/
def U64MAX : Nat := 2 ^ 64 - 1

/-- `BLOCK_BITS`: bits per bitmap block. -/
def BLOCK_BITS : Nat := BLOCK_SZ * 8

/-- `u64::trailing_ones`: the number of trailing one bits, i.e. the index
of the lowest zero bit. -/
def trailingOnes (w : Nat) : Nat :=
  if h : w % 2 = 1 then trailingOnes (w / 2) + 1 else 0
termination_by w
decreasing_by omega

/-- `bitmap_block.iter().enumerate().find(|bits64| bits64 != u64::MAX)`:
index and value of the first word with a free bit. -/
def findFreeWord : List Nat → Option (Nat × Nat)
  | [] => none
  | w :: ws =>
    if w ≠ U64MAX then some (0, w)
    else (findFreeWord ws).map (fun r => (r.1 + 1, r.2))

/-- The body of `Bitmap::alloc`'s `modify` closure: find the first free
word, set its lowest zero bit via `trailing_ones`, and return
`(bits64_pos, inner_pos, updated block)`. -/
def allocInBlock (blk : List Nat) : Option (Nat × Nat × List Nat) :=
  match findFreeWord blk with
  | some r =>
    let inner_pos := trailingOnes r.2
    some (r.1, inner_pos, blk.set r.1 (r.2 ||| 1 <<< inner_pos))
  | none => none

/-- `Bitmap::alloc`: scan blocks from `block_id` upward; in the first
block with a free bit, set it and return
`block_id * BLOCK_BITS + bits64_pos * 64 + inner_pos`. -/
def bitmapAlloc : List (List Nat) → Nat → Option (Nat × List (List Nat))
  | [], _ => none
  | blk :: rest, block_id =>
    match allocInBlock blk with
    | some r => some (block_id * BLOCK_BITS + r.1 * 64 + r.2.1, r.2.2 :: rest)
    | none => (bitmapAlloc rest (block_id + 1)).map (fun r => (r.1, blk :: r.2))

/-- `decomposition`: split a bit position into
`(block_pos, bits64_pos, inner_pos)`. -/
def decomposition (bit : Nat) : Nat × Nat × Nat :=
  (bit / BLOCK_BITS, bit % BLOCK_BITS / 64, bit % BLOCK_BITS % 64)

/-- `Bitmap::dealloc`: `assert!(word & (1 << inner_pos) > 0)` (`none`
models the panic), then subtract the bit. -/
def bitmapDealloc (bs : List (List Nat)) (bit : Nat) : Option (List (List Nat)) :=
  let block_pos := (decomposition bit).1
  let bits64_pos := (decomposition bit).2.1
  let inner_pos := (decomposition bit).2.2
  match bs[block_pos]? with
  | none => none
  | some blk =>
    let w := blk.getD bits64_pos 0
    if w &&& 1 <<< inner_pos > 0 then
      some (bs.set block_pos (blk.set bits64_pos (w - 1 <<< inner_pos)))
    else none

/-- Bit `p` of the bitmap region. -/
def bitmapGet (bs : List (List Nat)) (p : Nat) : Bool :=
  Nat.testBit ((bs.getD (p / BLOCK_BITS) []).getD (p % BLOCK_BITS / 64) 0)
    (p % BLOCK_BITS % 64)

/-- Well-formed bitmap region: every block is 64 words of 64 bits. -/
def BitmapWF (bs : List (List Nat)) : Prop :=
  (∀ blk ∈ bs, blk.length = 64) ∧ ∀ blk ∈ bs, ∀ w ∈ blk, w < 2 ^ 64

/- ===================== THEOREMS ===================== -/

/-- C5: for every file size `s` whose block count is within the inode's
maximum capacity, `DiskInode::total_blocks(s)` equals
`ceil(s/512) + [s > 28·512] + [s > 156·512]·(1 + ceil((ceil(s/512) − 156)/128))`. -/
theorem total_blocks_formula (s : Nat)
    (_hcap : data_blocks_of s ≤ INODE_DIRECT_COUNT + INODE_INDIRECT1_COUNT
      + INODE_INDIRECT1_COUNT * INODE_INDIRECT1_COUNT) :
    total_blocks s =
      (s + 512 - 1) / 512
      + (if s > 28 * 512 then 1 else 0)
      + (if s > 156 * 512 then 1 + ((s + 512 - 1) / 512 - 156 + 128 - 1) / 128 else 0) := by
  simp only [total_blocks, data_blocks_of, INODE_DIRECT_COUNT, INODE_INDIRECT1_COUNT,
    INDIRECT1_BOUND, BLOCK_SZ]
  split_ifs <;> omega

/-- Witness for C5 at `s = 80000`. -/
theorem total_blocks_formula_witness :
    total_blocks 80000 =
      (80000 + 512 - 1) / 512
      + (if 80000 > 28 * 512 then 1 else 0)
      + (if 80000 > 156 * 512 then 1 + ((80000 + 512 - 1) / 512 - 156 + 128 - 1) / 128 else 0) :=
  total_blocks_formula 80000 (by decide)

/-- C7: `StackFrameAllocator::alloc` pops the recycle stack if nonempty,
else returns and advances the cursor, failing exactly when the stack is
empty and the cursor reached the end; `dealloc(ppn)` panics iff
`ppn ≥ current` or `ppn` is already recycled, else pushes `ppn`. -/
theorem stack_frame_allocator_spec (s : StackFrameAllocator) (ppn : Nat) :
    (∀ p rest, s.recycled = p :: rest →
      s.alloc = (some p, { s with recycled := rest })) ∧
    (s.recycled = [] → s.current ≠ s.endPpn →
      s.alloc = (some s.current, { s with current := s.current + 1 })) ∧
    (s.alloc.1 = none ↔ s.recycled = [] ∧ s.current = s.endPpn) ∧
    (s.dealloc ppn = none ↔ s.current ≤ ppn ∨ ppn ∈ s.recycled) ∧
    (ppn < s.current → ppn ∉ s.recycled →
      s.dealloc ppn = some { s with recycled := ppn :: s.recycled }) := by
  refine ⟨?_, ?_, ?_, ?_, ?_⟩
  · intro p rest h
    simp [StackFrameAllocator.alloc, h]
  · intro h hne
    simp [StackFrameAllocator.alloc, h, hne]
  · unfold StackFrameAllocator.alloc
    cases h : s.recycled with
    | nil => by_cases hc : s.current = s.endPpn <;> simp [hc]
    | cons p rest => simp
  · unfold StackFrameAllocator.dealloc
    by_cases h : s.current ≤ ppn ∨ ppn ∈ s.recycled <;> simp [h]
  · intro h1 h2
    have : ¬ (s.current ≤ ppn ∨ ppn ∈ s.recycled) := by
      push_neg
      exact ⟨by omega, h2⟩
    simp [StackFrameAllocator.dealloc, this]

/-- Witness for C7 at a concrete allocator state. -/
theorem stack_frame_allocator_spec_witness :
    StackFrameAllocator.alloc ⟨3, 5, [2]⟩ = (some 2, ⟨3, 5, []⟩) ∧
    StackFrameAllocator.dealloc ⟨3, 5, []⟩ 1 = some ⟨3, 5, [1]⟩ := by
  constructor
  · exact (stack_frame_allocator_spec ⟨3, 5, [2]⟩ 1).1 2 [] rfl
  · exact (stack_frame_allocator_spec ⟨3, 5, []⟩ 1).2.2.2.2 (by decide) (by decide)

/-- C8: `Semaphore::up` increments the counter and, when the result is ≤ 0,
moves the front waiter (if any) to the back of the ready queue;
`Semaphore::down` decrements the counter and, when the result is < 0,
appends the current thread to the wait queue and blocks it; the counter
may go negative (see the witness). -/
theorem semaphore_up_down_spec (s : SemState) (cur : Nat) :
    ((Semaphore.up s).count = s.count + 1) ∧
    (s.count + 1 ≤ 0 → ∀ t rest, s.wait_queue = t :: rest →
      Semaphore.up s =
        { count := s.count + 1, wait_queue := rest, ready_queue := s.ready_queue ++ [t] }) ∧
    (s.count + 1 ≤ 0 → s.wait_queue = [] → Semaphore.up s = { s with count := s.count + 1 }) ∧
    (0 < s.count + 1 → Semaphore.up s = { s with count := s.count + 1 }) ∧
    ((Semaphore.down s cur).1.count = s.count - 1) ∧
    (s.count - 1 < 0 →
      Semaphore.down s cur =
        ({ s with count := s.count - 1, wait_queue := s.wait_queue ++ [cur] }, true)) ∧
    (0 ≤ s.count - 1 → Semaphore.down s cur = ({ s with count := s.count - 1 }, false)) := by
  refine ⟨?_, ?_, ?_, ?_, ?_, ?_, ?_⟩
  · unfold Semaphore.up
    by_cases h : s.count + 1 ≤ 0 <;> cases hq : s.wait_queue <;> simp [h, hq]
  · intro h t rest hq
    simp [Semaphore.up, h, hq]
  · intro h hq
    simp [Semaphore.up, h, hq]
  · intro h
    have : ¬ (s.count + 1 ≤ 0) := by omega
    simp [Semaphore.up, this]
  · unfold Semaphore.down
    by_cases h : s.count - 1 < 0 <;> simp [h]
  · intro h
    simp [Semaphore.down, h]
  · intro h
    have : ¬ (s.count - 1 < 0) := by omega
    simp [Semaphore.down, this]

/-- Witness for C8: `down` at counter 0 drives the counter negative and
blocks; `up` at counter −1 wakes the queued thread. -/
theorem semaphore_up_down_spec_witness :
    Semaphore.down ⟨0, [], []⟩ 7 = (⟨-1, [7], []⟩, true) ∧
    Semaphore.up ⟨-1, [7], []⟩ = ⟨0, [], [7]⟩ := by
  constructor
  · exact (semaphore_up_down_spec ⟨0, [], []⟩ 7).2.2.2.2.2.1 (by decide)
  · exact (semaphore_up_down_spec ⟨-1, [7], []⟩ 0).2.1 (by decide) 7 [] rfl

/-- C9 counterexample: `MutexSpin::unlock` on an unlocked spin mutex
returns normally (it just clears the flag), so "every mutex panics on
unlock-while-unlocked" is false on the code. -/
theorem mutex_spin_unlock_no_panic : MutexSpin.unlock false = some false := rfl

/-- C9 amended: only `MutexBlocking::unlock` asserts the locked flag and
panics when the mutex is not locked; `MutexSpin::unlock` silently clears
the flag whatever the prior state. -/
theorem mutex_unlock_amended (s : MutexBlockingState) (b : Bool) :
    (s.locked = false → MutexBlocking.unlock s = none) ∧
    MutexSpin.unlock b = some false := by
  constructor
  · intro h
    simp [MutexBlocking.unlock, h]
  · rfl

/-- Witness for C9 amended at a concrete unlocked blocking mutex. -/
theorem mutex_unlock_amended_witness :
    MutexBlocking.unlock ⟨false, [], []⟩ = none :=
  (mutex_unlock_amended ⟨false, [], []⟩ true).1 rfl

/-- C1: on a kernel with process 2 registered and no pending signals,
`sys_kill(2, 9)` returns 0 — yet the pending set of process 2 is still
empty (`insert` acted on a by-value copy of `inner.signals`), so the bit
for signal 9 is NOT set afterwards, contrary to the claim and to the
function's own documentation. -/
theorem sys_kill_does_not_set_pending_bit :
    (sys_kill ⟨[(2, 0)]⟩ 2 9).1 = 0 ∧
    (sys_kill ⟨[(2, 0)]⟩ 2 9).2 = ⟨[(2, 0)]⟩ ∧
    pid2signals (sys_kill ⟨[(2, 0)]⟩ 2 9).2 2 = some 0 ∧
    Nat.testBit 0 9 = false := by
  refine ⟨by decide, by decide, by decide, by decide⟩

/-- C2: after a single guarded `write_byte` from the empty buffer (a
reachable state), `available_read = 1` but `available_write` also returns
1 (its `tail > head` branch returns `tail - head`), so
`available_read + available_write = 2 ≠ 32`: the capacity invariant fails. -/
theorem pipe_capacity_invariant_violated :
    PipeReachable (PipeRingBuffer.new.write_byte 7) ∧
    (PipeRingBuffer.new.write_byte 7).available_read = 1 ∧
    (PipeRingBuffer.new.write_byte 7).available_write = 1 ∧
    (PipeRingBuffer.new.write_byte 7).available_read
      + (PipeRingBuffer.new.write_byte 7).available_write ≠ RING_BUFFER_SIZE := by
  refine ⟨PipeReachable.write _ 7 PipeReachable.init (by decide) (by decide),
    by decide, by decide, by decide⟩

/-- C4: with one due sleep-timer entry (expire 5 ≤ now 10), the
`SupervisorTimer` arm of `trap_handler` arms the next tick and re-queues
the current thread but leaves the `TIMERS` heap untouched and never wakes
thread 1 — `check_timer` (which would pop the entry and ready thread 1) is
called nowhere in the kernel. -/
theorem timer_interrupt_skips_due_timers :
    trap_handler_supervisor_timer ⟨[⟨5, 1⟩], [], 0, false⟩
      = ⟨[⟨5, 1⟩], [0], 0, true⟩ ∧
    check_timer 10 [⟨5, 1⟩] [] = ([], [1]) := by
  refine ⟨by decide, by decide⟩

/-- The first zero byte of `l ++ 0 …` with NUL-free `l` sits at index
`l.length`. -/
theorem firstZeroIdx_append_replicate (l : List Nat) (k : Nat) (hk : 0 < k)
    (h : 0 ∉ l) : firstZeroIdx (l ++ List.replicate k 0) = some l.length := by
  induction l with
  | nil =>
    cases k with
    | zero => omega
    | succ k => simp [firstZeroIdx, List.replicate]
  | cons b rest ih =>
    simp only [List.mem_cons, not_or] at h
    have hb : ¬ (b = 0) := fun hb0 => h.1 (hb0.symm)
    simp only [List.cons_append, firstZeroIdx, hb, if_false, List.append_eq]
    rw [ih h.2]
    simp

/-- C10: for a NUL-free name of at most 27 bytes, `DirEntry::new` followed
by `name()` returns exactly the name and `inode_number()` the stored
number; for a name longer than 28 bytes `DirEntry::new` panics on the
out-of-bounds slice copy instead of truncating. -/
theorem dir_entry_roundtrip (name : List Nat) (i : Nat) :
    (0 ∉ name → name.length ≤ NAME_LENGTH_LIMIT →
      ∃ e, DirEntry.new name i = some e ∧
        e.nameBytes = some name ∧ e.inodeNumber = i) ∧
    (name.length > NAME_LENGTH_LIMIT + 1 → DirEntry.new name i = none) := by
  constructor
  · intro hname hlen
    have hnew : DirEntry.new name i =
        some { name := name ++ List.replicate (NAME_LENGTH_LIMIT + 1 - name.length) 0
               inode_number := i } := by
      simp only [DirEntry.new, NAME_LENGTH_LIMIT] at *
      rw [if_pos (by omega)]
    refine ⟨_, hnew, ?_, rfl⟩
    simp only [DirEntry.nameBytes]
    rw [firstZeroIdx_append_replicate name _ (by simp only [NAME_LENGTH_LIMIT] at *; omega) hname]
    simp [List.take_left]
  · intro h
    simp only [DirEntry.new]
    rw [if_neg (by omega)]

/-- Witness for C10 at the 2-byte name "hi" (bytes 104, 105), inode 7. -/
theorem dir_entry_roundtrip_witness :
    ∃ e, DirEntry.new [104, 105] 7 = some e ∧
      e.nameBytes = some [104, 105] ∧ e.inodeNumber = 7 :=
  (dir_entry_roundtrip [104, 105] 7).1 (by decide) (by decide)

/-- Reading the cell just written. -/
theorem writePTE_same (m : Nat → Nat → Nat) (p i v : Nat) :
    writePTE m p i v p i = v := by
  simp [writePTE]

/-- Reading any other cell is unchanged by `writePTE`. -/
theorem writePTE_other (m : Nat → Nat → Nat) {p i q j : Nat} (v : Nat)
    (h : q ≠ p ∨ j ≠ i) : writePTE m p i v q j = m q j := by
  rcases h with h | h <;> simp [writePTE, h]

/-- `PTE.new` packs the disjoint PPN and flag fields, so it is addition. -/
theorem PTE.new_eq_add {p fl : Nat} (hf : fl < 2 ^ 10) :
    PTE.new p fl = 2 ^ 10 * p + fl := by
  unfold PTE.new
  exact shiftLeft_or_eq_add hf

/-- `PageTableEntry::ppn` recovers the packed PPN. -/
theorem PTE.ppn_new {p fl : Nat} (hp : p < 2 ^ 44) (hf : fl < 2 ^ 10) :
    PTE.ppn (PTE.new p fl) = p := by
  rw [PTE.new_eq_add hf]
  unfold PTE.ppn
  rw [Nat.shiftRight_eq_div_pow]
  have h1 : (2 ^ 10 * p + fl) / 2 ^ 10 = p := by
    rw [Nat.mul_add_div (by norm_num), Nat.div_eq_of_lt hf]
    omega
  have h2 : (1 : Nat) <<< 44 = 2 ^ 44 := by
    rw [Nat.shiftLeft_eq]
    norm_num
  rw [h1, h2, Nat.and_pow_two_sub_one_eq_mod, Nat.mod_eq_of_lt hp]

/-- `PageTableEntry::flags` recovers the packed flag byte. -/
theorem PTE.flags_new {p fl : Nat} (hf : fl < 256) :
    PTE.flags (PTE.new p fl) = fl := by
  rw [PTE.new_eq_add (by omega)]
  unfold PTE.flags
  have h1 : 2 ^ 10 * p = 256 * (4 * p) := by ring
  rw [h1, Nat.mul_add_mod, Nat.mod_eq_of_lt hf]

/-- `flags | V` always has the V bit. -/
theorem or_one_and_one (fl : Nat) : (fl ||| 1) &&& 1 = 1 := by
  rw [Nat.and_one_is_mod]
  have h : (fl ||| 1).testBit 0 = true := by
    rw [Nat.testBit_or]
    simp
  rw [Nat.testBit_zero] at h
  exact of_decide_eq_true h

/-- A PTE built with `flags | V` is valid. -/
theorem PTE.isValid_new_or_one {p fl : Nat} (hf : fl < 256) :
    PTE.isValid (PTE.new p (fl ||| 1)) = true := by
  have hor : fl ||| 1 < 256 := by
    have h256 : (256 : Nat) = 2 ^ 8 := by norm_num
    rw [h256] at hf ⊢
    exact Nat.or_lt_two_pow hf (by norm_num)
  unfold PTE.isValid
  rw [PTE.flags_new hor]
  simp [or_one_and_one]

/-- An interior PTE built by `find_pte_create` (flags = V) is valid. -/
theorem PTE.isValid_new_one (p : Nat) : PTE.isValid (PTE.new p 1) = true := by
  unfold PTE.isValid
  rw [PTE.flags_new (by omega)]
  decide

/-- Evaluation of `find_pte` when both interior PTEs are valid. -/
theorem find_pte_eval (s : PTMem) (vpn p0 p1 : Nat)
    (h0 : PTE.isValid (s.mem s.rootPpn (VPN.indexes vpn).1) = true)
    (hp0 : PTE.ppn (s.mem s.rootPpn (VPN.indexes vpn).1) = p0)
    (h1 : PTE.isValid (s.mem p0 (VPN.indexes vpn).2.1) = true)
    (hp1 : PTE.ppn (s.mem p0 (VPN.indexes vpn).2.1) = p1) :
    find_pte s vpn = some (p1, (VPN.indexes vpn).2.2) := by
  simp [find_pte, h0, hp0, h1, hp1]

/-- `translate` copies the leaf PTE found by `find_pte`. -/
theorem translate_of_find (s : PTMem) (vpn p i : Nat)
    (h : find_pte s vpn = some (p, i)) :
    PageTable.translate s vpn = some (s.mem p i) := by
  simp [PageTable.translate, h]

/-- `unmap` zeroes the (valid) leaf PTE found by `find_pte`. -/
theorem unmap_of_find (s : PTMem) (vpn p i : Nat)
    (h : find_pte s vpn = some (p, i)) (hv : PTE.isValid (s.mem p i) = true) :
    PageTable.unmap s vpn = some { s with mem := writePTE s.mem p i 0 } := by
  simp [PageTable.unmap, h, hv]

/-- C3 counterexample: from the empty table, `map(0, 5, R)` then
`unmap(0)` leaves the interior nodes valid, so `translate(0)` walks to the
zeroed leaf and returns `Some` of the zero entry — NOT `None` as the claim
states. -/
theorem translate_after_unmap_not_none :
    (PageTable.map pt0 0 5 2).bind (fun s1 =>
      (PageTable.unmap s1 0).map (fun s2 => PageTable.translate s2 0)) =
      some (some 0) := by
  decide

/-- The zeroed fresh frame reads as zero. -/
theorem zeroFrame_same (m : Nat → Nat → Nat) (p j : Nat) : zeroFrame m p p j = 0 := by
  simp [zeroFrame]

/-- Other frames are unchanged by `zeroFrame`. -/
theorem zeroFrame_other (m : Nat → Nat → Nat) {p q : Nat} (j : Nat) (h : q ≠ p) :
    zeroFrame m p q j = m q j := by
  simp [zeroFrame, h]

/-- The zero PTE is invalid. -/
theorem isValid_zero : PTE.isValid 0 = false := by decide

/-- `fl | V` stays within the 8 flag bits. -/
theorem or_one_lt_256 {fl : Nat} (h : fl < 256) : fl ||| 1 < 256 := by
  have h256 : (256 : Nat) = 2 ^ 8 := by norm_num
  rw [h256] at h ⊢
  exact Nat.or_lt_two_pow h (by norm_num)


/-- C3, map/translate/unmap round trip when both interior levels of the
walk already exist (`find_pte_create` allocates nothing). -/
theorem map_unmap_caseA (s : PTMem) (vpn ppn flags p0 p1 : Nat)
    (hppn : ppn < 2 ^ 44) (hfl : flags < 256)
    (hv0 : PTE.isValid (s.mem s.rootPpn (VPN.indexes vpn).1) = true)
    (hp0 : PTE.ppn (s.mem s.rootPpn (VPN.indexes vpn).1) = p0)
    (hv1 : PTE.isValid (s.mem p0 (VPN.indexes vpn).2.1) = true)
    (hp1 : PTE.ppn (s.mem p0 (VPN.indexes vpn).2.1) = p1)
    (hp1root : p1 ≠ s.rootPpn) (hp1p0 : p1 ≠ p0)
    (hleafinv : PTE.isValid (s.mem p1 (VPN.indexes vpn).2.2) = false) :
    MapUnmapSpec s vpn ppn flags := by
  have hLppn : PTE.ppn (PTE.new ppn (flags ||| 1)) = ppn :=
    PTE.ppn_new hppn (by have := or_one_lt_256 hfl; omega)
  have hLflags : PTE.flags (PTE.new ppn (flags ||| 1)) = flags ||| 1 :=
    PTE.flags_new (or_one_lt_256 hfl)
  have hLvalid : PTE.isValid (PTE.new ppn (flags ||| 1)) = true :=
    PTE.isValid_new_or_one hfl
  have hfpc : find_pte_create s vpn = (s, p1, (VPN.indexes vpn).2.2) := by
    simp [find_pte_create, stepCreate, hv0, hp0, hv1, hp1]
  set W := writePTE s.mem p1 (VPN.indexes vpn).2.2 (PTE.new ppn (flags ||| 1)) with hW
  have e0 : W s.rootPpn (VPN.indexes vpn).1 = s.mem s.rootPpn (VPN.indexes vpn).1 := by
    rw [hW]
    simp [writePTE, Ne.symm hp1root]
  have e1 : W p0 (VPN.indexes vpn).2.1 = s.mem p0 (VPN.indexes vpn).2.1 := by
    rw [hW]
    simp [writePTE, Ne.symm hp1p0]
  have e2 : W p1 (VPN.indexes vpn).2.2 = PTE.new ppn (flags ||| 1) := by
    rw [hW]
    simp [writePTE]
  have hfind1 : find_pte ⟨W, s.rootPpn, s.nextFrame⟩ vpn
      = some (p1, (VPN.indexes vpn).2.2) := by
    refine find_pte_eval _ vpn p0 p1 ?_ ?_ ?_ ?_
    · show PTE.isValid (W s.rootPpn (VPN.indexes vpn).1) = true
      rw [e0]
      exact hv0
    · show PTE.ppn (W s.rootPpn (VPN.indexes vpn).1) = p0
      rw [e0]
      exact hp0
    · show PTE.isValid (W p0 (VPN.indexes vpn).2.1) = true
      rw [e1]
      exact hv1
    · show PTE.ppn (W p0 (VPN.indexes vpn).2.1) = p1
      rw [e1]
      exact hp1
  refine ⟨⟨W, s.rootPpn, s.nextFrame⟩, ?_, ?_, ?_⟩
  · show PageTable.map s vpn ppn flags = some ⟨W, s.rootPpn, s.nextFrame⟩
    rw [hW]
    simp [PageTable.map, hfpc, hleafinv]
  · refine ⟨PTE.new ppn (flags ||| 1), ?_, hLppn, ?_, hLvalid⟩
    · rw [translate_of_find _ _ _ _ hfind1]
      show some (W p1 (VPN.indexes vpn).2.2) = _
      rw [e2]
    · rw [hLflags]
      exact Nat.and_self _
  · have hvL : PTE.isValid ((⟨W, s.rootPpn, s.nextFrame⟩ : PTMem).mem
        p1 (VPN.indexes vpn).2.2) = true := by
      show PTE.isValid (W p1 (VPN.indexes vpn).2.2) = true
      rw [e2]
      exact hLvalid
    refine ⟨_, unmap_of_find _ _ _ _ hfind1 hvL, ?_, isValid_zero⟩
    have f0 : writePTE W p1 (VPN.indexes vpn).2.2 0 s.rootPpn (VPN.indexes vpn).1
        = s.mem s.rootPpn (VPN.indexes vpn).1 := by
      rw [writePTE_other _ _ (Or.inl (Ne.symm hp1root))]
      exact e0
    have f1 : writePTE W p1 (VPN.indexes vpn).2.2 0 p0 (VPN.indexes vpn).2.1
        = s.mem p0 (VPN.indexes vpn).2.1 := by
      rw [writePTE_other _ _ (Or.inl (Ne.symm hp1p0))]
      exact e1
    have f2 : writePTE W p1 (VPN.indexes vpn).2.2 0 p1 (VPN.indexes vpn).2.2 = 0 :=
      writePTE_same _ _ _ _
    have hfind2 : find_pte ⟨writePTE W p1 (VPN.indexes vpn).2.2 0,
        s.rootPpn, s.nextFrame⟩ vpn = some (p1, (VPN.indexes vpn).2.2) := by
      refine find_pte_eval _ vpn p0 p1 ?_ ?_ ?_ ?_
      · show PTE.isValid (writePTE W p1 (VPN.indexes vpn).2.2 0
          s.rootPpn (VPN.indexes vpn).1) = true
        rw [f0]
        exact hv0
      · show PTE.ppn (writePTE W p1 (VPN.indexes vpn).2.2 0
          s.rootPpn (VPN.indexes vpn).1) = p0
        rw [f0]
        exact hp0
      · show PTE.isValid (writePTE W p1 (VPN.indexes vpn).2.2 0
          p0 (VPN.indexes vpn).2.1) = true
        rw [f1]
        exact hv1
      · show PTE.ppn (writePTE W p1 (VPN.indexes vpn).2.2 0
          p0 (VPN.indexes vpn).2.1) = p1
        rw [f1]
        exact hp1
    rw [translate_of_find _ _ _ _ hfind2]
    show some (writePTE W p1 (VPN.indexes vpn).2.2 0 p1 (VPN.indexes vpn).2.2) = _
    rw [f2]

/-- C3, map/translate/unmap round trip when the first interior level
exists but the second is allocated fresh by `find_pte_create`. -/
theorem map_unmap_caseB (s : PTMem) (vpn ppn flags p0 : Nat)
    (hppn : ppn < 2 ^ 44) (hfl : flags < 256)
    (hroot : s.rootPpn < s.nextFrame) (hnf44 : s.nextFrame + 2 ≤ 2 ^ 44)
    (hv0 : PTE.isValid (s.mem s.rootPpn (VPN.indexes vpn).1) = true)
    (hp0 : PTE.ppn (s.mem s.rootPpn (VPN.indexes vpn).1) = p0)
    (hv1 : PTE.isValid (s.mem p0 (VPN.indexes vpn).2.1) = false)
    (hp0lt : p0 < s.nextFrame) (hp0root : p0 ≠ s.rootPpn) :
    MapUnmapSpec s vpn ppn flags := by
  have hLppn : PTE.ppn (PTE.new ppn (flags ||| 1)) = ppn :=
    PTE.ppn_new hppn (by have := or_one_lt_256 hfl; omega)
  have hLflags : PTE.flags (PTE.new ppn (flags ||| 1)) = flags ||| 1 :=
    PTE.flags_new (or_one_lt_256 hfl)
  have hLvalid : PTE.isValid (PTE.new ppn (flags ||| 1)) = true :=
    PTE.isValid_new_or_one hfl
  have hfpc : find_pte_create s vpn =
      (⟨writePTE (zeroFrame s.mem s.nextFrame) p0 (VPN.indexes vpn).2.1
          (PTE.new s.nextFrame 1), s.rootPpn, s.nextFrame + 1⟩,
        s.nextFrame, (VPN.indexes vpn).2.2) := by
    simp [find_pte_create, stepCreate, hv0, hp0, hv1]
  have eB0 : writePTE (zeroFrame s.mem s.nextFrame) p0 (VPN.indexes vpn).2.1
      (PTE.new s.nextFrame 1) s.nextFrame (VPN.indexes vpn).2.2 = 0 := by
    simp [writePTE, zeroFrame, (show s.nextFrame ≠ p0 by omega)]
  set M1 := writePTE (zeroFrame s.mem s.nextFrame) p0 (VPN.indexes vpn).2.1
    (PTE.new s.nextFrame 1) with hM1
  set W := writePTE M1 s.nextFrame (VPN.indexes vpn).2.2 (PTE.new ppn (flags ||| 1))
    with hW
  have b0 : W s.rootPpn (VPN.indexes vpn).1 = s.mem s.rootPpn (VPN.indexes vpn).1 := by
    rw [hW, hM1]
    simp [writePTE, zeroFrame, (show s.rootPpn ≠ s.nextFrame by omega), Ne.symm hp0root]
  have b1 : W p0 (VPN.indexes vpn).2.1 = PTE.new s.nextFrame 1 := by
    rw [hW, hM1]
    simp [writePTE, (show p0 ≠ s.nextFrame by omega)]
  have b2 : W s.nextFrame (VPN.indexes vpn).2.2 = PTE.new ppn (flags ||| 1) := by
    rw [hW]
    simp [writePTE]
  have h1B : PTE.isValid (W p0 (VPN.indexes vpn).2.1) = true := by
    rw [b1]
    exact PTE.isValid_new_one _
  have hp1B : PTE.ppn (W p0 (VPN.indexes vpn).2.1) = s.nextFrame := by
    rw [b1]
    exact PTE.ppn_new (by omega) (by norm_num)
  have hfind1 : find_pte ⟨W, s.rootPpn, s.nextFrame + 1⟩ vpn
      = some (s.nextFrame, (VPN.indexes vpn).2.2) := by
    refine find_pte_eval _ vpn p0 s.nextFrame ?_ ?_ ?_ ?_
    · show PTE.isValid (W s.rootPpn (VPN.indexes vpn).1) = true
      rw [b0]
      exact hv0
    · show PTE.ppn (W s.rootPpn (VPN.indexes vpn).1) = p0
      rw [b0]
      exact hp0
    · exact h1B
    · exact hp1B
  refine ⟨⟨W, s.rootPpn, s.nextFrame + 1⟩, ?_, ?_, ?_⟩
  · show PageTable.map s vpn ppn flags = some ⟨W, s.rootPpn, s.nextFrame + 1⟩
    rw [hW, hM1]
    simp [PageTable.map, hfpc, eB0, isValid_zero]
  · refine ⟨PTE.new ppn (flags ||| 1), ?_, hLppn, ?_, hLvalid⟩
    · rw [translate_of_find _ _ _ _ hfind1]
      show some (W s.nextFrame (VPN.indexes vpn).2.2) = _
      rw [b2]
    · rw [hLflags]
      exact Nat.and_self _
  · have hvL : PTE.isValid ((⟨W, s.rootPpn, s.nextFrame + 1⟩ : PTMem).mem
        s.nextFrame (VPN.indexes vpn).2.2) = true := by
      show PTE.isValid (W s.nextFrame (VPN.indexes vpn).2.2) = true
      rw [b2]
      exact hLvalid
    refine ⟨_, unmap_of_find _ _ _ _ hfind1 hvL, ?_, isValid_zero⟩
    have f0 : writePTE W s.nextFrame (VPN.indexes vpn).2.2 0 s.rootPpn (VPN.indexes vpn).1
        = s.mem s.rootPpn (VPN.indexes vpn).1 := by
      rw [writePTE_other _ _ (Or.inl (show s.rootPpn ≠ s.nextFrame by omega))]
      exact b0
    have f1 : writePTE W s.nextFrame (VPN.indexes vpn).2.2 0 p0 (VPN.indexes vpn).2.1
        = PTE.new s.nextFrame 1 := by
      rw [writePTE_other _ _ (Or.inl (show p0 ≠ s.nextFrame by omega))]
      exact b1
    have f2 : writePTE W s.nextFrame (VPN.indexes vpn).2.2 0
        s.nextFrame (VPN.indexes vpn).2.2 = 0 :=
      writePTE_same _ _ _ _
    have hfind2 : find_pte ⟨writePTE W s.nextFrame (VPN.indexes vpn).2.2 0,
        s.rootPpn, s.nextFrame + 1⟩ vpn = some (s.nextFrame, (VPN.indexes vpn).2.2) := by
      refine find_pte_eval _ vpn p0 s.nextFrame ?_ ?_ ?_ ?_
      · show PTE.isValid (writePTE W s.nextFrame (VPN.indexes vpn).2.2 0
          s.rootPpn (VPN.indexes vpn).1) = true
        rw [f0]
        exact hv0
      · show PTE.ppn (writePTE W s.nextFrame (VPN.indexes vpn).2.2 0
          s.rootPpn (VPN.indexes vpn).1) = p0
        rw [f0]
        exact hp0
      · show PTE.isValid (writePTE W s.nextFrame (VPN.indexes vpn).2.2 0
          p0 (VPN.indexes vpn).2.1) = true
        rw [f1]
        exact PTE.isValid_new_one _
      · show PTE.ppn (writePTE W s.nextFrame (VPN.indexes vpn).2.2 0
          p0 (VPN.indexes vpn).2.1) = s.nextFrame
        rw [f1]
        exact PTE.ppn_new (by omega) (by norm_num)
    rw [translate_of_find _ _ _ _ hfind2]
    show some (writePTE W s.nextFrame (VPN.indexes vpn).2.2 0
      s.nextFrame (VPN.indexes vpn).2.2) = _
    rw [f2]

/-- C3, map/translate/unmap round trip when the root-level PTE is invalid
and `find_pte_create` allocates both interior nodes fresh. -/
theorem map_unmap_caseC (s : PTMem) (vpn ppn flags : Nat)
    (hppn : ppn < 2 ^ 44) (hfl : flags < 256)
    (hroot : s.rootPpn < s.nextFrame) (hnf44 : s.nextFrame + 2 ≤ 2 ^ 44)
    (hv0 : PTE.isValid (s.mem s.rootPpn (VPN.indexes vpn).1) = false) :
    MapUnmapSpec s vpn ppn flags := by
  have hLppn : PTE.ppn (PTE.new ppn (flags ||| 1)) = ppn :=
    PTE.ppn_new hppn (by have := or_one_lt_256 hfl; omega)
  have hLflags : PTE.flags (PTE.new ppn (flags ||| 1)) = flags ||| 1 :=
    PTE.flags_new (or_one_lt_256 hfl)
  have hLvalid : PTE.isValid (PTE.new ppn (flags ||| 1)) = true :=
    PTE.isValid_new_or_one hfl
  have eC1 : writePTE (zeroFrame s.mem s.nextFrame) s.rootPpn (VPN.indexes vpn).1
      (PTE.new s.nextFrame 1) s.nextFrame (VPN.indexes vpn).2.1 = 0 := by
    simp [writePTE, zeroFrame, (show s.nextFrame ≠ s.rootPpn by omega)]
  have hfpc : find_pte_create s vpn =
      (⟨writePTE (zeroFrame (writePTE (zeroFrame s.mem s.nextFrame) s.rootPpn
          (VPN.indexes vpn).1 (PTE.new s.nextFrame 1)) (s.nextFrame + 1))
          s.nextFrame (VPN.indexes vpn).2.1 (PTE.new (s.nextFrame + 1) 1),
        s.rootPpn, s.nextFrame + 1 + 1⟩,
        s.nextFrame + 1, (VPN.indexes vpn).2.2) := by
    simp [find_pte_create, stepCreate, hv0, eC1, isValid_zero]
  have eC2 : writePTE (zeroFrame (writePTE (zeroFrame s.mem s.nextFrame) s.rootPpn
      (VPN.indexes vpn).1 (PTE.new s.nextFrame 1)) (s.nextFrame + 1))
      s.nextFrame (VPN.indexes vpn).2.1 (PTE.new (s.nextFrame + 1) 1)
      (s.nextFrame + 1) (VPN.indexes vpn).2.2 = 0 := by
    simp [writePTE, zeroFrame, (show s.nextFrame + 1 ≠ s.nextFrame by omega)]
  set M1 := writePTE (zeroFrame s.mem s.nextFrame) s.rootPpn (VPN.indexes vpn).1
    (PTE.new s.nextFrame 1) with hM1
  set M2 := writePTE (zeroFrame M1 (s.nextFrame + 1)) s.nextFrame (VPN.indexes vpn).2.1
    (PTE.new (s.nextFrame + 1) 1) with hM2
  set W := writePTE M2 (s.nextFrame + 1) (VPN.indexes vpn).2.2
    (PTE.new ppn (flags ||| 1)) with hW
  have b0 : W s.rootPpn (VPN.indexes vpn).1 = PTE.new s.nextFrame 1 := by
    rw [hW, hM2, hM1]
    simp [writePTE, zeroFrame, (show s.rootPpn ≠ s.nextFrame + 1 by omega),
      (show s.rootPpn ≠ s.nextFrame by omega)]
  have b1 : W s.nextFrame (VPN.indexes vpn).2.1 = PTE.new (s.nextFrame + 1) 1 := by
    rw [hW, hM2]
    simp [writePTE, (show s.nextFrame ≠ s.nextFrame + 1 by omega)]
  have b2 : W (s.nextFrame + 1) (VPN.indexes vpn).2.2 = PTE.new ppn (flags ||| 1) := by
    rw [hW]
    simp [writePTE]
  have hfind1 : find_pte ⟨W, s.rootPpn, s.nextFrame + 1 + 1⟩ vpn
      = some (s.nextFrame + 1, (VPN.indexes vpn).2.2) := by
    refine find_pte_eval _ vpn s.nextFrame (s.nextFrame + 1) ?_ ?_ ?_ ?_
    · show PTE.isValid (W s.rootPpn (VPN.indexes vpn).1) = true
      rw [b0]
      exact PTE.isValid_new_one _
    · show PTE.ppn (W s.rootPpn (VPN.indexes vpn).1) = s.nextFrame
      rw [b0]
      exact PTE.ppn_new (by omega) (by norm_num)
    · show PTE.isValid (W s.nextFrame (VPN.indexes vpn).2.1) = true
      rw [b1]
      exact PTE.isValid_new_one _
    · show PTE.ppn (W s.nextFrame (VPN.indexes vpn).2.1) = s.nextFrame + 1
      rw [b1]
      exact PTE.ppn_new (by omega) (by norm_num)
  refine ⟨⟨W, s.rootPpn, s.nextFrame + 1 + 1⟩, ?_, ?_, ?_⟩
  · show PageTable.map s vpn ppn flags = some ⟨W, s.rootPpn, s.nextFrame + 1 + 1⟩
    rw [hW, hM2, hM1]
    simp [PageTable.map, hfpc, eC2, isValid_zero]
  · refine ⟨PTE.new ppn (flags ||| 1), ?_, hLppn, ?_, hLvalid⟩
    · rw [translate_of_find _ _ _ _ hfind1]
      show some (W (s.nextFrame + 1) (VPN.indexes vpn).2.2) = _
      rw [b2]
    · rw [hLflags]
      exact Nat.and_self _
  · have hvL : PTE.isValid ((⟨W, s.rootPpn, s.nextFrame + 1 + 1⟩ : PTMem).mem
        (s.nextFrame + 1) (VPN.indexes vpn).2.2) = true := by
      show PTE.isValid (W (s.nextFrame + 1) (VPN.indexes vpn).2.2) = true
      rw [b2]
      exact hLvalid
    refine ⟨_, unmap_of_find _ _ _ _ hfind1 hvL, ?_, isValid_zero⟩
    have f0 : writePTE W (s.nextFrame + 1) (VPN.indexes vpn).2.2 0
        s.rootPpn (VPN.indexes vpn).1 = PTE.new s.nextFrame 1 := by
      rw [writePTE_other _ _ (Or.inl (show s.rootPpn ≠ s.nextFrame + 1 by omega))]
      exact b0
    have f1 : writePTE W (s.nextFrame + 1) (VPN.indexes vpn).2.2 0
        s.nextFrame (VPN.indexes vpn).2.1 = PTE.new (s.nextFrame + 1) 1 := by
      rw [writePTE_other _ _ (Or.inl (show s.nextFrame ≠ s.nextFrame + 1 by omega))]
      exact b1
    have f2 : writePTE W (s.nextFrame + 1) (VPN.indexes vpn).2.2 0
        (s.nextFrame + 1) (VPN.indexes vpn).2.2 = 0 :=
      writePTE_same _ _ _ _
    have hfind2 : find_pte ⟨writePTE W (s.nextFrame + 1) (VPN.indexes vpn).2.2 0,
        s.rootPpn, s.nextFrame + 1 + 1⟩ vpn
        = some (s.nextFrame + 1, (VPN.indexes vpn).2.2) := by
      refine find_pte_eval _ vpn s.nextFrame (s.nextFrame + 1) ?_ ?_ ?_ ?_
      · show PTE.isValid (writePTE W (s.nextFrame + 1) (VPN.indexes vpn).2.2 0
          s.rootPpn (VPN.indexes vpn).1) = true
        rw [f0]
        exact PTE.isValid_new_one _
      · show PTE.ppn (writePTE W (s.nextFrame + 1) (VPN.indexes vpn).2.2 0
          s.rootPpn (VPN.indexes vpn).1) = s.nextFrame
        rw [f0]
        exact PTE.ppn_new (by omega) (by norm_num)
      · show PTE.isValid (writePTE W (s.nextFrame + 1) (VPN.indexes vpn).2.2 0
          s.nextFrame (VPN.indexes vpn).2.1) = true
        rw [f1]
        exact PTE.isValid_new_one _
      · show PTE.ppn (writePTE W (s.nextFrame + 1) (VPN.indexes vpn).2.2 0
          s.nextFrame (VPN.indexes vpn).2.1) = s.nextFrame + 1
        rw [f1]
        exact PTE.ppn_new (by omega) (by norm_num)
    rw [translate_of_find _ _ _ _ hfind2]
    show some (writePTE W (s.nextFrame + 1) (VPN.indexes vpn).2.2 0
      (s.nextFrame + 1) (VPN.indexes vpn).2.2) = _
    rw [f2]

/-- C3 amended: for every page table whose walk of `vpn` is well formed and
whose leaf for `vpn` is not currently valid, after `map(vpn, ppn, f)` the
entry returned by `translate(vpn)` carries `ppn` and flags ⊇ `f|V`; after
a subsequent `unmap(vpn)`, `translate(vpn)` returns `Some` of the zero
entry (an entry that is not valid) — NOT `None`: the walk returns the leaf
copy whenever the interior nodes are reachable and valid, without checking
the leaf's own V bit. -/
theorem page_table_translate_roundtrip (s : PTMem) (vpn ppn flags : Nat)
    (hpath : pathOK s vpn) (hppn : ppn < 2 ^ 44) (hfl : flags < 256)
    (hleaf : ∀ p i, find_pte s vpn = some (p, i) → PTE.isValid (s.mem p i) = false) :
    MapUnmapSpec s vpn ppn flags := by
  obtain ⟨hroot, hnf44, hint⟩ := hpath
  by_cases hv0 : PTE.isValid (s.mem s.rootPpn (VPN.indexes vpn).1) = true
  · obtain ⟨hp0lt, hp0root, hint1⟩ := hint _ hv0 rfl
    by_cases hv1 : PTE.isValid (s.mem (PTE.ppn (s.mem s.rootPpn (VPN.indexes vpn).1))
        (VPN.indexes vpn).2.1) = true
    · obtain ⟨hp1lt, hp1root, hp1p0⟩ := hint1 hv1
      have hfind : find_pte s vpn =
          some (PTE.ppn (s.mem (PTE.ppn (s.mem s.rootPpn (VPN.indexes vpn).1))
            (VPN.indexes vpn).2.1), (VPN.indexes vpn).2.2) :=
        find_pte_eval s vpn _ _ hv0 rfl hv1 rfl
      exact map_unmap_caseA s vpn ppn flags _ _ hppn hfl hv0 rfl hv1 rfl
        hp1root hp1p0 (hleaf _ _ hfind)
    · rw [Bool.not_eq_true] at hv1
      exact map_unmap_caseB s vpn ppn flags _ hppn hfl hroot hnf44 hv0 rfl hv1
        hp0lt hp0root
  · rw [Bool.not_eq_true] at hv0
    exact map_unmap_caseC s vpn ppn flags hppn hfl hroot hnf44 hv0

/-- Witness for the amended C3 theorem at the empty page table,
`vpn = 0`, `ppn = 5`, `flags = R`. -/
theorem page_table_translate_roundtrip_witness :
    ∃ s1, PageTable.map pt0 0 5 2 = some s1 := by
  have h := page_table_translate_roundtrip pt0 0 5 2
    (by
      unfold pathOK
      refine ⟨by decide, by decide, ?_⟩
      intro p0 hval hp
      exact absurd hval (by decide))
    (by decide) (by decide)
    (by
      intro p i hfp
      have hn : find_pte pt0 0 = none := by decide
      rw [hn] at hfp
      simp at hfp)
  obtain ⟨s1, h1, -⟩ := h
  exact ⟨s1, h1⟩

/-- `trailing_ones` lands on a clear bit. -/
theorem trailingOnes_testBit_self (w : Nat) : w.testBit (trailingOnes w) = false := by
  induction w using Nat.strong_induction_on with
  | _ w ih =>
    rw [trailingOnes]
    by_cases h : w % 2 = 1
    · rw [dif_pos h, Nat.testBit_add_one]
      exact ih (w / 2) (by omega)
    · rw [dif_neg h, Nat.testBit_zero]
      simp [h]

/-- Every bit below `trailing_ones` is set. -/
theorem trailingOnes_testBit_lt (w : Nat) : ∀ t, t < trailingOnes w → w.testBit t = true := by
  induction w using Nat.strong_induction_on with
  | _ w ih =>
    intro t ht
    rw [trailingOnes] at ht
    by_cases h : w % 2 = 1
    · rw [dif_pos h] at ht
      cases t with
      | zero =>
        rw [Nat.testBit_zero]
        simp [h]
      | succ t =>
        rw [Nat.testBit_add_one]
        exact ih (w / 2) (by omega) t (by omega)
    · rw [dif_neg h] at ht
      omega

/-- A 64-bit word other than `u64::MAX` has its lowest zero bit below 64. -/
theorem trailingOnes_lt_64 {w : Nat} (hlt : w < 2 ^ 64) (hne : w ≠ U64MAX) :
    trailingOnes w < 64 := by
  by_contra hge
  push_neg at hge
  have hall : ∀ t, t < 64 → w.testBit t = true := fun t ht =>
    trailingOnes_testBit_lt w t (by omega)
  have hweq : w = 2 ^ 64 - 1 := by
    apply Nat.eq_of_testBit_eq
    intro j
    rw [Nat.testBit_two_pow_sub_one]
    by_cases hj : j < 64
    · simp [hj, hall j hj]
    · have hfb : w.testBit j = false :=
        Nat.testBit_lt_two_pow
          (lt_of_lt_of_le hlt (Nat.pow_le_pow_right (by omega) (by omega)))
      simp [hj, hfb]
  exact hne hweq

/-- `getD` after `set` at the same (in-range) index. -/
theorem getD_set_same {α : Type} (l : List α) (i : Nat) (a d : α)
    (h : i < l.length) : (l.set i a).getD i d = a := by
  induction l generalizing i with
  | nil => simp at h
  | cons x xs ih =>
    cases i with
    | zero => rfl
    | succ i => exact ih i (by simpa using h)

/-- `getD` after `set` at a different index. -/
theorem getD_set_other {α : Type} (l : List α) {i j : Nat} (a d : α)
    (h : j ≠ i) : (l.set i a).getD j d = l.getD j d := by
  induction l generalizing i j with
  | nil => simp
  | cons x xs ih =>
    cases i with
    | zero =>
      cases j with
      | zero => omega
      | succ j => rfl
    | succ i =>
      cases j with
      | zero => rfl
      | succ j => exact ih (by omega)

/-- `getElem?` after `set` at the same (in-range) index. -/
theorem getElem?_set_same {α : Type} (l : List α) (i : Nat) (a : α)
    (h : i < l.length) : (l.set i a)[i]? = some a := by
  induction l generalizing i with
  | nil => simp at h
  | cons x xs ih =>
    cases i with
    | zero => simp
    | succ i =>
      rw [List.set_cons_succ, List.getElem?_cons_succ]
      exact ih i (by simpa using h)

/-- Writing back the value already stored is the identity. -/
theorem set_getD_self {α : Type} (l : List α) (i : Nat) (d : α) :
    l.set i (l.getD i d) = l := by
  induction l generalizing i with
  | nil => rfl
  | cons x xs ih =>
    cases i with
    | zero => rfl
    | succ i =>
      show x :: xs.set i (xs.getD i d) = x :: xs
      rw [ih]

/-- In-range `getD` values are members. -/
theorem getD_mem {α : Type} (l : List α) (i : Nat) (d : α) (h : i < l.length) :
    l.getD i d ∈ l := by
  induction l generalizing i with
  | nil => simp at h
  | cons x xs ih =>
    cases i with
    | zero => exact List.mem_cons_self x xs
    | succ i => exact List.mem_cons_of_mem x (ih i (by simpa using h))

/-- A failed word scan means every word is all-ones. -/
theorem findFreeWord_none {ws : List Nat} (h : findFreeWord ws = none) :
    ∀ w ∈ ws, w = U64MAX := by
  induction ws with
  | nil => simp
  | cons v ws ih =>
    rw [findFreeWord] at h
    by_cases hv : v = U64MAX
    · rw [if_neg (not_not_intro hv)] at h
      intro u hu
      rcases List.mem_cons.mp hu with hu | hu
      · exact hu.trans hv
      · exact ih (Option.map_eq_none'.mp h) u hu
    · rw [if_pos hv] at h
      exact absurd h (by simp)

/-- A successful word scan returns the first not-all-ones word. -/
theorem findFreeWord_some {ws : List Nat} {wp w : Nat}
    (h : findFreeWord ws = some (wp, w)) :
    wp < ws.length ∧ ws.getD wp 0 = w ∧ w ≠ U64MAX ∧
      ∀ j < wp, ws.getD j 0 = U64MAX := by
  induction ws generalizing wp with
  | nil => simp [findFreeWord] at h
  | cons v ws ih =>
    rw [findFreeWord] at h
    by_cases hv : v = U64MAX
    · rw [if_neg (not_not_intro hv)] at h
      cases hfw : findFreeWord ws with
      | none =>
        rw [hfw] at h
        exact absurd h (by simp)
      | some r =>
        obtain ⟨r1, r2⟩ := r
        rw [hfw] at h
        simp only [Option.map_some'] at h
        obtain ⟨h1, h2⟩ := Prod.mk.injEq .. ▸ (Option.some.injEq _ _ ▸ h)
        obtain ⟨ha, hb, hc, hd⟩ := @ih r1 (by rw [hfw]; rw [h2])
        refine ⟨by simp; omega, ?_, hc, ?_⟩
        · rw [← h1]
          simpa using hb
        · intro j hj
          cases j with
          | zero => simpa using hv
          | succ j =>
            rw [List.getD_cons_succ]
            exact hd j (by omega)
    · rw [if_pos hv] at h
      simp only [Option.some.injEq, Prod.mk.injEq] at h
      obtain ⟨h1, h2⟩ := h
      refine ⟨by simp [← h1], ?_, by rw [← h2]; exact hv, ?_⟩
      · rw [← h1, ← h2]
        rfl
      · intro j hj
        omega

/-- A failed in-block allocation means every word is all-ones. -/
theorem allocInBlock_none {blk : List Nat} (h : allocInBlock blk = none) :
    ∀ w ∈ blk, w = U64MAX := by
  unfold allocInBlock at h
  cases hfw : findFreeWord blk with
  | none => exact findFreeWord_none hfw
  | some r =>
    rw [hfw] at h
    exact absurd h (by simp)

/-- A successful in-block allocation sets the lowest zero bit of the
first not-all-ones word. -/
theorem allocInBlock_some {blk : List Nat} {wp ip : Nat} {blk' : List Nat}
    (h : allocInBlock blk = some (wp, ip, blk')) :
    wp < blk.length ∧ ip = trailingOnes (blk.getD wp 0) ∧
      blk.getD wp 0 ≠ U64MAX ∧ (∀ j < wp, blk.getD j 0 = U64MAX) ∧
      blk' = blk.set wp (blk.getD wp 0 ||| 1 <<< ip) := by
  unfold allocInBlock at h
  cases hfw : findFreeWord blk with
  | none =>
    rw [hfw] at h
    exact absurd h (by simp)
  | some r =>
    obtain ⟨r1, r2⟩ := r
    rw [hfw] at h
    simp only [Option.some.injEq, Prod.mk.injEq] at h
    obtain ⟨h1, h2, h3⟩ := h
    obtain ⟨ha, hb, hc, hd⟩ := findFreeWord_some hfw
    subst h1
    refine ⟨ha, ?_, by rw [hb]; exact hc, hd, ?_⟩
    · rw [hb, h2]
    · rw [← h3, hb, h2]

/-- A failed region allocation means every bit of every block is set. -/
theorem bitmapAlloc_none {bs : List (List Nat)} {n : Nat}
    (h : bitmapAlloc bs n = none) :
    ∀ blk ∈ bs, ∀ w ∈ blk, w = U64MAX := by
  induction bs generalizing n with
  | nil => simp
  | cons blk rest ih =>
    rw [bitmapAlloc] at h
    cases hab : allocInBlock blk with
    | some r =>
      rw [hab] at h
      exact absurd h (by simp)
    | none =>
      rw [hab] at h
      intro u hu
      rcases List.mem_cons.mp hu with hu | hu
      · exact hu ▸ allocInBlock_none hab
      · exact ih (Option.map_eq_none'.mp h) u hu

/-- A successful region allocation: structural characterization relative
to the starting `block_id`. -/
theorem bitmapAlloc_some {bs : List (List Nat)} {n b : Nat}
    {bs' : List (List Nat)} (h : bitmapAlloc bs n = some (b, bs')) :
    ∃ bp wp ip,
      bp < bs.length ∧
      b = (n + bp) * BLOCK_BITS + wp * 64 + ip ∧
      (∀ k < bp, ∀ u ∈ bs.getD k [], u = U64MAX) ∧
      allocInBlock (bs.getD bp []) =
        some (wp, ip, (bs.getD bp []).set wp ((bs.getD bp []).getD wp 0 ||| 1 <<< ip)) ∧
      bs' = bs.set bp ((bs.getD bp []).set wp ((bs.getD bp []).getD wp 0 ||| 1 <<< ip)) := by
  induction bs generalizing n b bs' with
  | nil => simp [bitmapAlloc] at h
  | cons blk rest ih =>
    rw [bitmapAlloc] at h
    cases hab : allocInBlock blk with
    | some r =>
      obtain ⟨r1, r2, blk'⟩ := r
      rw [hab] at h
      simp only [Option.some.injEq, Prod.mk.injEq] at h
      obtain ⟨h1, h2⟩ := h
      obtain ⟨ha, hb, hc, hd, he⟩ := allocInBlock_some hab
      refine ⟨0, r1, r2, by simp,
        by simp only [BLOCK_BITS, BLOCK_SZ] at h1 ⊢; omega,
        by intro k hk; exact absurd hk (by omega), ?_, ?_⟩
      · simp only [List.getD_cons_zero]
        rw [hab, he]
      · rw [← h2, he]
        simp only [List.getD_cons_zero, List.set_cons_zero]
    | none =>
      rw [hab] at h
      cases hrec : bitmapAlloc rest (n + 1) with
      | none =>
        rw [hrec] at h
        exact absurd h (by simp)
      | some r =>
        obtain ⟨rb, rs⟩ := r
        rw [hrec] at h
        simp only [Option.map_some', Option.some.injEq, Prod.mk.injEq] at h
        obtain ⟨h1, h2⟩ := h
        obtain ⟨bp, wp, ip, g1, g2, g3, g4, g5⟩ := ih hrec
        refine ⟨bp + 1, wp, ip, by simp; omega,
          by simp only [BLOCK_BITS, BLOCK_SZ] at g2 ⊢; omega, ?_, ?_, ?_⟩
        · intro k hk
          cases k with
          | zero =>
            intro u hu
            exact allocInBlock_none hab u (by simpa using hu)
          | succ k =>
            intro u hu
            exact g3 k (by omega) u (by simpa using hu)
        · simpa using g4
        · rw [← h2, g5]
          rfl


/-- `1u64 << n` is `2 ^ n`. -/
theorem one_shiftLeft_eq_pow (n : Nat) : (1 : Nat) <<< n = 2 ^ n := by
  rw [Nat.shiftLeft_eq, Nat.one_mul]

/-- Evaluation of `Bitmap::dealloc` when the bit is set. -/
theorem bitmapDealloc_eval (bs : List (List Nat)) (bit bp wp ip : Nat)
    (blk : List Nat)
    (ha : (decomposition bit).1 = bp) (hb : (decomposition bit).2.1 = wp)
    (hc : (decomposition bit).2.2 = ip)
    (h2 : bs[bp]? = some blk)
    (h3 : blk.getD wp 0 &&& 1 <<< ip > 0) :
    bitmapDealloc bs bit
      = some (bs.set bp (blk.set wp (blk.getD wp 0 - 1 <<< ip))) := by
  unfold bitmapDealloc
  simp only [ha, hb, hc]
  rw [h2]
  show (if blk.getD wp 0 &&& 1 <<< ip > 0
    then some (bs.set bp (blk.set wp (blk.getD wp 0 - 1 <<< ip))) else none) = _
  rw [if_pos h3]

/-- Soundness bundle for `Bitmap::alloc` on a well-formed region: the
returned bit was clear, exactly it becomes set, well-formedness is kept,
and `dealloc` of the returned bit restores the region. -/
theorem bitmapAlloc_sound {bs : List (List Nat)} {b : Nat}
    {bs' : List (List Nat)} (hwf : BitmapWF bs)
    (h : bitmapAlloc bs 0 = some (b, bs')) :
    bitmapGet bs b = false ∧
    (∀ p, bitmapGet bs' p = if p = b then true else bitmapGet bs p) ∧
    BitmapWF bs' ∧
    bitmapDealloc bs' b = some bs := by
  obtain ⟨hlen, hbits⟩ := hwf
  obtain ⟨bp, wp, ip, h1, h2, h3, h4, h5⟩ := bitmapAlloc_some h
  obtain ⟨ha, hb, hc, hd, -⟩ := allocInBlock_some h4
  have hblklen : (bs.getD bp []).length = 64 := hlen _ (getD_mem bs bp [] h1)
  have hwp64 : wp < 64 := by omega
  have hwlt : (bs.getD bp []).getD wp 0 < 2 ^ 64 :=
    hbits _ (getD_mem bs bp [] h1) _ (getD_mem _ wp 0 (by omega))
  have hip64 : ip < 64 := hb ▸ trailingOnes_lt_64 hwlt hc
  have hbfalse : ((bs.getD bp []).getD wp 0).testBit ip = false :=
    hb ▸ trailingOnes_testBit_self _
  have hdb1 : b / BLOCK_BITS = bp := by
    simp only [BLOCK_BITS, BLOCK_SZ] at h2 ⊢
    omega
  have hdb2 : b % BLOCK_BITS / 64 = wp := by
    simp only [BLOCK_BITS, BLOCK_SZ] at h2 ⊢
    omega
  have hdb3 : b % BLOCK_BITS % 64 = ip := by
    simp only [BLOCK_BITS, BLOCK_SZ] at h2 ⊢
    omega
  have hget : bitmapGet bs b = false := by
    unfold bitmapGet
    rw [hdb1, hdb2, hdb3]
    exact hbfalse
  refine ⟨hget, ?_, ?_, ?_⟩
  · intro p
    by_cases hpb : p = b
    · subst hpb
      rw [if_pos rfl]
      unfold bitmapGet
      rw [h5, hdb1, getD_set_same _ _ _ _ h1, hdb2,
        getD_set_same _ _ _ _ (by omega), hdb3, Nat.testBit_or,
        one_shiftLeft_eq_pow, Nat.testBit_two_pow_self]
      simp
    · rw [if_neg hpb]
      unfold bitmapGet
      rw [h5]
      by_cases hp1 : p / BLOCK_BITS = bp
      · rw [hp1, getD_set_same _ _ _ _ h1]
        by_cases hp2 : p % BLOCK_BITS / 64 = wp
        · rw [hp2, getD_set_same _ _ _ _ (by omega)]
          have hp3 : p % BLOCK_BITS % 64 ≠ ip := by
            intro hq
            apply hpb
            simp only [BLOCK_BITS, BLOCK_SZ] at hp1 hp2 hq hdb1 hdb2 hdb3 ⊢
            omega
          rw [Nat.testBit_or, one_shiftLeft_eq_pow,
            Nat.testBit_two_pow_of_ne (Ne.symm hp3)]
          simp
        · rw [getD_set_other _ _ _ hp2]
      · rw [getD_set_other _ _ _ hp1]
  · constructor
    · intro blk' hblk'
      rw [h5] at hblk'
      rcases List.mem_or_eq_of_mem_set hblk' with hm | hm
      · exact hlen _ hm
      · rw [hm, List.length_set]
        exact hblklen
    · intro blk' hblk' u hu
      rw [h5] at hblk'
      rcases List.mem_or_eq_of_mem_set hblk' with hm | hm
      · exact hbits _ hm u hu
      · rw [hm] at hu
        rcases List.mem_or_eq_of_mem_set hu with hm2 | hm2
        · exact hbits _ (getD_mem bs bp [] h1) u hm2
        · rw [hm2, one_shiftLeft_eq_pow]
          exact Nat.or_lt_two_pow hwlt (Nat.pow_lt_pow_right (by omega) hip64)
  · have hsome : bs'[bp]? =
        some ((bs.getD bp []).set wp ((bs.getD bp []).getD wp 0 ||| 1 <<< ip)) := by
      rw [h5]
      exact getElem?_set_same _ _ _ h1
    have hword : ((bs.getD bp []).set wp
        ((bs.getD bp []).getD wp 0 ||| 1 <<< ip)).getD wp 0
        = (bs.getD bp []).getD wp 0 ||| 1 <<< ip :=
      getD_set_same _ _ _ _ (by omega)
    have hpos : ((bs.getD bp []).set wp
        ((bs.getD bp []).getD wp 0 ||| 1 <<< ip)).getD wp 0 &&& 1 <<< ip > 0 := by
      rw [hword, one_shiftLeft_eq_pow, Nat.and_two_pow, Nat.testBit_or,
        Nat.testBit_two_pow_self]
      simp [Nat.pos_pow_of_pos]
    rw [bitmapDealloc_eval bs' b bp wp ip _ hdb1 hdb2 hdb3 hsome hpos, hword]
    have hsub : ((bs.getD bp []).getD wp 0 ||| 1 <<< ip) - 1 <<< ip
        = (bs.getD bp []).getD wp 0 := by
      rw [one_shiftLeft_eq_pow, or_two_pow_eq_add hbfalse]
      omega
    rw [hsub, List.set_set, set_getD_self, h5, List.set_set, set_getD_self]

/-- C6: for a bitmap region with at least one zero bit, `alloc` returns
`Some b` with `b = block_index·4096 + word_index·64 + bit_within_word`,
where the block is the first non-full one, the word the first
not-all-ones word of it, and the bit its lowest zero bit; exactly that
bit becomes set; a following `dealloc(b)` restores the prior contents;
and a second `alloc` without intervening `dealloc` returns a distinct
position. -/
theorem bitmap_alloc_dealloc_roundtrip (bs : List (List Nat)) (hwf : BitmapWF bs)
    (hfree : ∃ bp, bp < bs.length ∧ ∃ wp, wp < 64 ∧
      (bs.getD bp []).getD wp 0 ≠ U64MAX) :
    ∃ b bs', bitmapAlloc bs 0 = some (b, bs') ∧
      (∃ bp wp,
        bp < bs.length ∧ wp < 64 ∧
        b = bp * BLOCK_BITS + wp * 64 + trailingOnes ((bs.getD bp []).getD wp 0) ∧
        (∀ k < bp, ∀ u ∈ bs.getD k [], u = U64MAX) ∧
        (∀ j < wp, (bs.getD bp []).getD j 0 = U64MAX) ∧
        (bs.getD bp []).getD wp 0 ≠ U64MAX ∧
        Nat.testBit ((bs.getD bp []).getD wp 0)
          (trailingOnes ((bs.getD bp []).getD wp 0)) = false ∧
        (∀ t < trailingOnes ((bs.getD bp []).getD wp 0),
          Nat.testBit ((bs.getD bp []).getD wp 0) t = true)) ∧
      bitmapGet bs b = false ∧
      (∀ p, bitmapGet bs' p = if p = b then true else bitmapGet bs p) ∧
      bitmapDealloc bs' b = some bs ∧
      (∀ b' bs'', bitmapAlloc bs' 0 = some (b', bs'') → b' ≠ b) := by
  obtain ⟨bp0, hbp0, wp0, hwp0, hne0⟩ := hfree
  cases hall : bitmapAlloc bs 0 with
  | none =>
    exfalso
    have hblklen : (bs.getD bp0 []).length = 64 := hwf.1 _ (getD_mem bs bp0 [] hbp0)
    exact hne0 (bitmapAlloc_none hall _ (getD_mem bs bp0 [] hbp0) _
      (getD_mem _ wp0 0 (by omega)))
  | some r =>
    obtain ⟨b, bs'⟩ := r
    obtain ⟨hget, hpoint, hwf', hdeal⟩ := bitmapAlloc_sound hwf hall
    obtain ⟨bp, wp, ip, k1, k2, k3, k4, k5⟩ := bitmapAlloc_some hall
    obtain ⟨m1, m2, m3, m4, -⟩ := allocInBlock_some k4
    have hblklen : (bs.getD bp []).length = 64 := hwf.1 _ (getD_mem bs bp [] k1)
    refine ⟨b, bs', rfl, ⟨bp, wp, k1, by omega, ?_, k3, m4, m3, ?_, ?_⟩,
      hget, hpoint, hdeal, ?_⟩
    · rw [← m2]
      simpa using k2
    · exact trailingOnes_testBit_self _
    · intro t ht
      exact trailingOnes_testBit_lt _ t ht
    · intro b' bs'' hall' hbeq
      obtain ⟨hget', -, -, -⟩ := bitmapAlloc_sound hwf' hall'
      rw [hbeq] at hget'
      have hb := hpoint b
      rw [if_pos rfl] at hb
      rw [hb] at hget'
      exact Bool.noConfusion hget'

/-- Witness for C6 at a one-block bitmap of 64 zero words. -/
theorem bitmap_alloc_dealloc_roundtrip_witness :
    ∃ b bs', bitmapAlloc [List.replicate 64 0] 0 = some (b, bs') := by
  have h := bitmap_alloc_dealloc_roundtrip [List.replicate 64 0]
    (by
      unfold BitmapWF
      refine ⟨?_, ?_⟩ <;> decide)
    ⟨0, by decide, 0, by decide, by decide⟩
  obtain ⟨b, bs', h1, -⟩ := h
  exact ⟨b, bs', h1⟩
